import Mathlib

/-!
Shallow embedding of `dl_training/self_supervision/sim_clr.py` (SimCLR training
orchestration): the paired-augmentation dataset adapters, metric aggregation
(`update_metrics`), the training loop (`train`), the standard evaluation loop
(`test`) and the multi-sample feature-averaging evaluation (`features_avg_test`).

Modelling conventions:
* a mini-batch (`DataItem`) carries, for each sample, the two augmented views
  produced by the paired-augmentation wrapper, plus an optional label tensor
  (a list of labels, one per sample);
* the external model is a per-sample function `I → F` (the torch model applied
  row-wise to a batch);
* Python floats are modelled as exact rationals `ℚ`;
* the loss callable is modelled as a function of the call actually made
  (`LossCall` records whether the `labels` argument was passed), returning the
  scalar loss, the optional extra outputs `(logits, target)` that are splatted
  into `update_metrics`, and the auxiliary-loss dict that
  `self.loss.get_aux_losses()` would report for that batch;
* the optimizer is an abstract state `O` with the three operations the loop
  invokes (`zero_grad`, `backward`, `step`); progress bars, `print`, the
  visualizer and `model.train()/eval()` mode flips are external side effects
  with no bearing on the returned values and are not modelled.
-/

/-- One mini-batch yielded by the loader: for each sample the pair of augmented
views (`inputs[:, 0]`, `inputs[:, 1]`), and the optional labels of the batch. -/
structure DataItem (I L : Type) where
  inputs : List (I × I)
  labels : Option (List L)

/-- The call made to the loss callable: `loss(z_i, z_j, labels)` when the
batch has labels, `loss(z_i, z_j)` otherwise (lines 96-99 and 218-221). -/
inductive LossCall (F L : Type) where
  | withLabels (z_i z_j : List F) (labels : List L)
  | noLabels (z_i z_j : List F)
deriving DecidableEq

/-- Whether the labels argument was passed in this loss invocation. -/
def LossCall.hasLabels {F L : Type} : LossCall F L → Bool
  | .withLabels _ _ _ => true
  | .noLabels _ _ => false

/-- Result of one loss invocation: `batch_loss, *args` plus the auxiliary
losses `get_aux_losses()` reports after this evaluation.  `extra` is the pair
of optional splatted extras bound to `update_metrics`'s `logits`/`target`
parameters (both `none` when the loss returns only the scalar loss). -/
structure LossResult (E : Type) where
  loss : ℚ
  extra : Option E × Option E
  aux : List (String × ℚ)

/-- The SimCLR trainer's external collaborators (model, loss, metrics dict,
optimizer operations), all supplied by the host framework. -/
structure SimCLR (I F E L O : Type) where
  model : I → F
  loss : LossCall F L → LossResult E
  metrics : List (String × (E → E → ℚ))
  zero_grad : O → O
  backward : O → LossCall F L → O
  step : O → O

/-- The `values` metric dictionary: an insertion-ordered string-keyed map. -/
abbrev Values := List (String × ℚ)

/-- `if name not in values: values[name] = 0; values[name] += v` -/
def dictAdd : Values → String → ℚ → Values
  | [], n, v => [(n, v)]
  | (k, x) :: rest, n, v =>
      if k = n then (k, x + v) :: rest else (k, x) :: dictAdd rest n v

/-- Fold `dictAdd` over a list of keyed increments (a `for` loop of
`values[name] += v` statements). -/
def dictAddAll (vs : Values) (l : List (String × ℚ)) : Values :=
  l.foldl (fun a p => dictAdd a p.1 p.2) vs

/-- Dictionary access with default `0` (every key enters via `values[name] = 0`
followed by `+=`, so absent keys read as `0`). -/
def valueOf : Values → String → ℚ
  | [], _ => 0
  | (k, x) :: rest, n => if k = n then x else valueOf rest n

/-- Total increment a list of keyed increments contributes to key `k`. -/
def keySum (l : List (String × ℚ)) (k : String) : ℚ :=
  (l.map (fun p => if p.1 = k then p.2 else 0)).sum

/-- `SimCLR.get_output_pairs` (lines 48-55): feed view 0 and view 1 of every
sample of the batch through the model. -/
def get_output_pairs {I F : Type} (model : I → F) (inputs : List (I × I)) :
    List F × List F :=
  (inputs.map (fun p => model p.1), inputs.map (fun p => model p.2))

/-- `SimCLR.update_metrics` (lines 58-65): when both `logits` and `target` are
present, add `metric(logits, target) / nb_batch` to each metric's entry (key
suffixed on validation); otherwise leave `values` untouched. -/
def update_metrics {E : Type} (metrics : List (String × (E → E → ℚ)))
    (values : Values) (nb_batch : ℕ) (logits target : Option E)
    (validation : Bool) : Values :=
  match logits, target with
  | some lg, some tg =>
      dictAddAll values (metrics.map (fun p =>
        (if validation then p.1 ++ " on validation set" else p.1,
         p.2 lg tg / (nb_batch : ℚ))))
  | _, _ => values

/-- The loss invocation `train`/`test` perform for one batch: forward both
views, then call the loss with the labels argument iff labels are present. -/
def lossCallOf {I F E L O : Type} (m : SimCLR I F E L O) (d : DataItem I L) :
    LossCall F L :=
  match d.labels with
  | some ls =>
      .withLabels (get_output_pairs m.model d.inputs).1
        (get_output_pairs m.model d.inputs).2 ls
  | none =>
      .noLabels (get_output_pairs m.model d.inputs).1
        (get_output_pairs m.model d.inputs).2

/-- Loop state of `SimCLR.train`: optimizer state, metric dict, per-batch loss
list, and the trace of loss invocations made (instrumentation recording each
call, for stating which invocations the loop performs). -/
structure TrainAcc (F L O : Type) where
  opt : O
  values : Values
  losses : List ℚ
  calls : List (LossCall F L)

/-- One iteration of the `train` loop body (lines 90-119): `zero_grad`,
forward both views, loss, `backward`, `optimizer.step()`, accumulate auxiliary
losses, record the batch loss, then `update_metrics`. -/
def trainStep {I F E L O : Type} (m : SimCLR I F E L O) (nb_batch : ℕ)
    (acc : TrainAcc F L O) (d : DataItem I L) : TrainAcc F L O :=
  let o1 := m.zero_grad acc.opt
  let call := lossCallOf m d
  let r := m.loss call
  let o2 := m.backward o1 call
  let o3 := m.step o2
  let v1 := dictAddAll acc.values (r.aux.map (fun p => (p.1, p.2 / (nb_batch : ℚ))))
  let v2 := update_metrics m.metrics v1 nb_batch r.extra.1 r.extra.2 false
  { opt := o3, values := v2, losses := acc.losses ++ [r.loss],
    calls := acc.calls ++ [call] }

/-- `np.mean` on a list of floats: sum divided by length. -/
def npMean (l : List ℚ) : ℚ := l.sum / (l.length : ℚ)

/-- Result of `SimCLR.train`: `(loss, values)` plus the final optimizer state
and the trace of loss invocations. -/
structure TrainResult (F L O : Type) where
  loss : ℚ
  values : Values
  opt : O
  calls : List (LossCall F L)

/-- `SimCLR.train` (lines 67-124): iterate the loader once, run the per-batch
cycle, and return `np.mean(losses)` together with the metric dict. -/
def train {I F E L O : Type} (m : SimCLR I F E L O)
    (loader : List (DataItem I L)) (o0 : O) : TrainResult F L O :=
  let nb_batch := loader.length
  let acc := loader.foldl (trainStep m nb_batch) ⟨o0, [], [], []⟩
  ⟨npMean acc.losses, acc.values, acc.opt, acc.calls⟩

/-- Loop state and result of `SimCLR.test`: the lists `y`, `y_true`, `X`
initialized empty before the loop (lines 206) and never appended to (the
appending code is commented out, lines 224-229), the accumulated loss, the
metric dict, and the trace of loss invocations. -/
structure TestState (I F E L : Type) where
  y : List E
  y_true : List L
  X : List I
  loss : ℚ
  values : Values
  calls : List (LossCall F L)

/-- One iteration of the `test` loop body (lines 209-239): forward both views,
loss, `loss += batch_loss / nb_batch`, `update_metrics` with
`validation=True`, then auxiliary losses under keys suffixed with
`" on validation set"`.  `y`, `y_true`, `X` are untouched. -/
def testStep {I F E L O : Type} (m : SimCLR I F E L O) (nb_batch : ℕ)
    (acc : TestState I F E L) (d : DataItem I L) : TestState I F E L :=
  let call := lossCallOf m d
  let r := m.loss call
  let loss1 := acc.loss + r.loss / (nb_batch : ℚ)
  let v1 := update_metrics m.metrics acc.values nb_batch r.extra.1 r.extra.2 true
  let v2 := dictAddAll v1
    (r.aux.map (fun p => (p.1 ++ " on validation set", p.2 / (nb_batch : ℚ))))
  { acc with loss := loss1, values := v2, calls := acc.calls ++ [call] }

/-- `SimCLR.test` (lines 178-249, `with_visuals=False` path; the visuals
branch only additionally returns externally produced visuals): returns
`y, y_true, X, loss, values`. -/
def test {I F E L O : Type} (m : SimCLR I F E L O)
    (loader : List (DataItem I L)) : TestState I F E L :=
  let nb_batch := loader.length
  loader.foldl (testStep m nb_batch) ⟨[], [], [], 0, [], []⟩

/-- Sampler attached to a loader, as far as the `isinstance(loader.sampler,
SequentialSampler)` test distinguishes it. -/
inductive Sampler where
  | sequential
  | nonsequential
deriving DecidableEq

/-- The Python-level error outcomes of `features_avg_test`, by raise site. -/
inductive PyError where
  /-- line 143: `assert M//2 == M/2.0` fails. -/
  | assertionEven
  /-- line 146: `raise ValueError(...)` for a non-sequential sampler. -/
  | valueError
  /-- line 171: the loader-order sanity assertion fails. -/
  | assertionOrder
  /-- line 171: `np.array(y_true)[0,:]` on an empty `y_true` (when `M//2 <= 0`
  the pass loop never runs) raises `IndexError`. -/
  | indexError
deriving DecidableEq

/-- A loader as `features_avg_test` uses it: a sampler, and for each iteration
`p` over the loader (the augmentations are redrawn on every pass) the list of
batches that pass yields. -/
structure Loader (I L : Type) where
  sampler : Sampler
  passes : ℕ → List (DataItem I L)

/-- The labels collected over one pass: `current_y_true.extend(labels)` for
every batch whose labels are present (lines 161-162). -/
def passLabels {I L : Type} (pass : List (DataItem I L)) : List L :=
  pass.flatMap (fun d => d.labels.getD [])

/-- The feature rows collected over one pass: `current_y[0].extend(z_i)` and
`current_y[1].extend(z_j)` for every batch (lines 163-165). -/
def passFeatures {I F L : Type} (model : I → F) (pass : List (DataItem I L)) :
    List F × List F :=
  (pass.flatMap (fun d => (get_output_pairs model d.inputs).1),
   pass.flatMap (fun d => (get_output_pairs model d.inputs).2))

/-- `np.swapaxes(-, 0, 1)` on a rectangular list-of-rows array: column `i` of
the input becomes row `i` of the output.  (numpy only reaches this operation
on rectangular data; on ragged rows `np.array` itself would fail first, a
region none of the theorems below touch.) -/
def swapaxes {α : Type} (y : List (List α)) : List (List α) :=
  match y with
  | [] => []
  | r :: _ => (List.range r.length).map (fun i => y.filterMap (fun row => row[i]?))

/-- Number of samples a pass yields (sum of its batch sizes). -/
def passSize {I L : Type} (pass : List (DataItem I L)) : ℕ :=
  (pass.map (fun d => d.inputs.length)).sum

/-- The list `y` as built by the pass loop (lines 156-166): for each of the
`half = M//2` passes, the pass's `z_i` row then its `z_j` row. -/
def avgFeatureRows {I F L : Type} (model : I → F) (loader : Loader I L)
    (half : ℕ) : List (List F) :=
  (List.range half).flatMap (fun p =>
    [(passFeatures model (loader.passes p)).1,
     (passFeatures model (loader.passes p)).2])

/-- The list `y_true` as built by the pass loop (lines 156-167): each pass's
label row appended twice. -/
def avgLabelRows {I L : Type} (loader : Loader I L) (half : ℕ) :
    List (List L) :=
  (List.range half).flatMap (fun p =>
    [passLabels (loader.passes p), passLabels (loader.passes p)])

/-- `SimCLR.features_avg_test` (lines 126-175).  The sample-count assertion
`M//2 == M/2.0` compares Python's floor division with true division; the
comparison is modelled exactly over `ℚ` (Python compares `int` with `float`
by exact value).  On success the function returns `(y, y_true)`: `M//2`
passes over the loader, each pass appending its `z_i` row and its `z_j` row
to `y` and its label row twice to `y_true`, then the loader-order sanity
assertion (elementwise equality of every row of `y_true` with its first
row), then `swapaxes(0, 1)` on both. -/
def features_avg_test {I F L : Type} [DecidableEq L] (model : I → F)
    (loader : Loader I L) (M : ℤ) :
    Except PyError (List (List F) × List (List L)) :=
  if (M.fdiv 2 : ℚ) = (M : ℚ) / 2 then
    if loader.sampler = Sampler.sequential then
      if avgLabelRows loader (M.fdiv 2).toNat = [] then .error .indexError
      else
        if (avgLabelRows loader (M.fdiv 2).toNat).all
            (fun Li => Li = (avgLabelRows loader (M.fdiv 2).toNat).headD []) then
          .ok (swapaxes (avgFeatureRows model loader (M.fdiv 2).toNat),
               swapaxes (avgLabelRows loader (M.fdiv 2).toNat))
        else .error .assertionOrder
    else .error .valueError
  else .error .assertionEven

/-- `SimCLROpenBHB.__getitem__` (lines 31-36).  The parent `OpenBHB` dataset is
the external collaborator `parent`: given the item index and the state of the
freshly reseeded RNG it returns one augmented view and the label.  The two
`super().__getitem__(idx)` calls consume successive RNG states `s` and `s + 1`;
the label variable is rebound by the second call.  `np.stack((x1, x2), axis=0)`
is the two-element list `[x1, x2]` (a new leading axis of size 2). -/
def simCLROpenBHB_getitem {X Y : Type} (parent : ℕ → ℕ → X × Y)
    (idx : ℕ) (s : ℕ) : List X × Y :=
  let p1 := parent idx s
  let p2 := parent idx (s + 1)
  ([p1.1, p2.1], p2.2)

/-- `SimCLRSubOpenBHB.__getitem__` (lines 39-44), textually identical to
`SimCLROpenBHB.__getitem__` with parent `SubOpenBHB`. -/
def simCLRSubOpenBHB_getitem {X Y : Type} (parent : ℕ → ℕ → X × Y)
    (idx : ℕ) (s : ℕ) : List X × Y :=
  let p1 := parent idx s
  let p2 := parent idx (s + 1)
  ([p1.1, p2.1], p2.2)

/-! ### Helper lemmas -/

/-- Python's `M//2 == M/2.0` check holds exactly for even `M` (over exact
arithmetic). -/
theorem even_check_iff (M : ℤ) : ((M.fdiv 2 : ℚ) = (M : ℚ) / 2) ↔ Even M := by
  rw [Int.fdiv_eq_ediv M (by norm_num : (0 : ℤ) ≤ 2), Int.even_iff]
  constructor
  · intro hc
    have h2 : ((2 * (M / 2) : ℤ) : ℚ) = ((M : ℤ) : ℚ) := by
      push_cast
      rw [hc]
      ring
    have h3 : (2 * (M / 2) : ℤ) = M := by exact_mod_cast h2
    omega
  · intro hm
    have h3 : M / 2 * 2 = M := by omega
    field_simp
    exact_mod_cast h3

theorem list_sum_div (l : List ℚ) (c : ℚ) :
    (l.map (fun x => x / c)).sum = l.sum / c := by
  induction l with
  | nil => simp
  | cons a t ih => simp [ih, add_div]

theorem filterMap_getElem_all_some {α β : Type} (f : α → Option β) :
    ∀ (l : List α), (∀ x ∈ l, (f x).isSome) →
      ∀ k : ℕ, (l.filterMap f)[k]? = l[k]?.bind f := by
  intro l
  induction l with
  | nil => intro _ k; simp
  | cons x t ih =>
    intro hall k
    obtain ⟨b, hb⟩ := Option.isSome_iff_exists.mp (hall x (by simp))
    rw [List.filterMap_cons, hb]
    cases k with
    | zero => simp [hb]
    | succ n =>
      simp only [List.getElem?_cons_succ]
      exact ih (fun y hy => hall y (by simp [hy])) n

theorem filterMap_length_all_some {α β : Type} (f : α → Option β) :
    ∀ (l : List α), (∀ x ∈ l, (f x).isSome) →
      (l.filterMap f).length = l.length := by
  intro l
  induction l with
  | nil => intro _; rfl
  | cons x t ih =>
    intro hall
    obtain ⟨b, hb⟩ := Option.isSome_iff_exists.mp (hall x (by simp))
    rw [List.filterMap_cons, hb, List.length_cons, List.length_cons,
      ih (fun y hy => hall y (by simp [hy]))]

theorem swapaxes_length {α : Type} (y : List (List α)) (n : ℕ)
    (hy : ∀ r ∈ y, r.length = n) (hne : y ≠ []) :
    (swapaxes y).length = n := by
  cases y with
  | nil => exact absurd rfl hne
  | cons r t =>
    simp [swapaxes, hy r (by simp)]

theorem swapaxes_row_length {α : Type} (y : List (List α)) (n : ℕ)
    (hy : ∀ r ∈ y, r.length = n) :
    ∀ row ∈ swapaxes y, row.length = y.length := by
  cases y with
  | nil => simp [swapaxes]
  | cons r t =>
    intro row hrow
    simp only [swapaxes, List.mem_map, List.mem_range] at hrow
    obtain ⟨i, hi, hrow⟩ := hrow
    subst hrow
    apply filterMap_length_all_some
    intro x hx
    have hidx : i < x.length := by
      have h1 := hy x hx
      have h2 := hy r (by simp)
      omega
    simp [List.getElem?_eq_getElem hidx]

theorem swapaxes_entry {α : Type} (y : List (List α)) (n : ℕ)
    (hy : ∀ r ∈ y, r.length = n) (s k : ℕ) (hs : s < n) (hk : k < y.length) :
    (swapaxes y)[s]?.bind (fun row => row[k]?) =
      y[k]?.bind (fun row => row[s]?) := by
  cases y with
  | nil => simp at hk
  | cons r t =>
    have hr : r.length = n := hy r (by simp)
    simp only [swapaxes]
    rw [List.getElem?_map, List.getElem?_range (by rw [hr]; exact hs)]
    simp only [Option.map_some', Option.some_bind]
    rw [filterMap_getElem_all_some _ _ (fun x hx => by
      have hidx : s < x.length := by rw [hy x hx]; exact hs
      simp [List.getElem?_eq_getElem hidx]) k]

theorem pairFlat_length {α : Type} (a b : ℕ → α) (h : ℕ) :
    ((List.range h).flatMap (fun p => [a p, b p])).length = 2 * h := by
  induction h with
  | zero => rfl
  | succ n ih =>
    rw [List.range_succ, List.flatMap_append, List.length_append, ih]
    simp only [List.flatMap_cons, List.flatMap_nil, List.append_nil,
      List.length_cons, List.length_nil]
    omega

theorem pairFlat_getElem_even {α : Type} (a b : ℕ → α) (h k : ℕ)
    (hk : k < h) :
    ((List.range h).flatMap (fun p => [a p, b p]))[2 * k]? = some (a k) := by
  induction h with
  | zero => omega
  | succ n ih =>
    rw [List.range_succ, List.flatMap_append, List.getElem?_append]
    rcases Nat.lt_or_ge k n with hkn | hkn
    · rw [if_pos (by rw [pairFlat_length]; omega)]
      exact ih hkn
    · have hk2 : k = n := by omega
      subst hk2
      rw [if_neg (by rw [pairFlat_length]; omega), pairFlat_length]
      have h0 : 2 * k - 2 * k = 0 := by omega
      rw [h0]
      simp

theorem pairFlat_getElem_odd {α : Type} (a b : ℕ → α) (h k : ℕ)
    (hk : k < h) :
    ((List.range h).flatMap (fun p => [a p, b p]))[2 * k + 1]? = some (b k) := by
  induction h with
  | zero => omega
  | succ n ih =>
    rw [List.range_succ, List.flatMap_append, List.getElem?_append]
    rcases Nat.lt_or_ge k n with hkn | hkn
    · rw [if_pos (by rw [pairFlat_length]; omega)]
      exact ih hkn
    · have hk2 : k = n := by omega
      subst hk2
      rw [if_neg (by rw [pairFlat_length]; omega), pairFlat_length]
      have h0 : 2 * k + 1 - 2 * k = 1 := by omega
      rw [h0]
      simp

theorem pairFlat_mem {α : Type} (a b : ℕ → α) (h : ℕ) (r : α) :
    r ∈ (List.range h).flatMap (fun p => [a p, b p]) ↔
      ∃ p, p < h ∧ (r = a p ∨ r = b p) := by
  simp only [List.mem_flatMap, List.mem_range, List.mem_cons,
    List.mem_singleton, List.not_mem_nil, or_false]

theorem passFeatures_fst_length {I F L : Type} (model : I → F)
    (pass : List (DataItem I L)) :
    (passFeatures model pass).1.length = passSize pass := by
  simp [passFeatures, passSize, List.length_flatMap, get_output_pairs,
    Function.comp_def]

theorem passFeatures_snd_length {I F L : Type} (model : I → F)
    (pass : List (DataItem I L)) :
    (passFeatures model pass).2.length = passSize pass := by
  simp [passFeatures, passSize, List.length_flatMap, get_output_pairs,
    Function.comp_def]

/-! ### Claim theorems -/

/-- C2: `features_avg_test` performs an even-sample-count check on `M`: for
every odd integer `M` it raises `AssertionError` regardless of the loader
(the check precedes any use of the loader), and for every even integer `M`
the check `M//2 == M/2.0` passes, so that assertion is never the outcome. -/
theorem features_avg_test_even_assertion {I F L : Type} [DecidableEq L]
    (model : I → F) (loader : Loader I L) (M : ℤ) :
    features_avg_test model loader M = Except.error PyError.assertionEven ↔
      ¬ Even M := by
  unfold features_avg_test
  by_cases hc : (M.fdiv 2 : ℚ) = (M : ℚ) / 2
  · rw [if_pos hc]
    have hev := (even_check_iff M).mp hc
    constructor
    · intro h
      exfalso
      revert h
      split
      · split
        · simp
        · split <;> simp
      · simp
    · intro h
      exact absurd hev h
  · rw [if_neg hc]
    have hodd : ¬ Even M := fun hev => hc ((even_check_iff M).mpr hev)
    simp [hodd]

/-- C3: for every even `M`, `features_avg_test` raises `ValueError` if and
only if the loader's sampler is not a `SequentialSampler`; with a sequential
sampler no `ValueError` is ever raised (for any `M`). -/
theorem features_avg_test_valueError_iff {I F L : Type} [DecidableEq L]
    (model : I → F) (loader : Loader I L) (M : ℤ) (hM : Even M) :
    (features_avg_test model loader M = Except.error PyError.valueError ↔
      loader.sampler ≠ Sampler.sequential) ∧
    (∀ M0 : ℤ, loader.sampler = Sampler.sequential →
      features_avg_test model loader M0 ≠ Except.error PyError.valueError) := by
  have hinner : ∀ M0 : ℤ, loader.sampler = Sampler.sequential →
      features_avg_test model loader M0 ≠ Except.error PyError.valueError := by
    intro M0 hseq h
    revert h
    unfold features_avg_test
    by_cases hc : (M0.fdiv 2 : ℚ) = (M0 : ℚ) / 2
    · rw [if_pos hc, if_pos hseq]
      by_cases hyt : avgLabelRows loader (M0.fdiv 2).toNat = []
      · rw [if_pos hyt]
        simp
      · rw [if_neg hyt]
        split <;> simp
    · rw [if_neg hc]
      simp
  refine ⟨?_, hinner⟩
  constructor
  · intro h
    intro hseq
    exact hinner M hseq h
  · intro hns
    unfold features_avg_test
    rw [if_pos ((even_check_iff M).mpr hM), if_neg hns]

/-- C4: with a sequential sampler and an even `M >= 2`, the loader-order
sanity assertion of `features_avg_test` (every row of the collected `y_true`,
in which each pass's label row appears twice, equals the first row) fails if
and only if some pass yielded a label sequence different from the first
pass's; when every pass yields the same labels in the same order the
assertion never fails. -/
theorem features_avg_test_order_check {I F L : Type} [DecidableEq L]
    (model : I → F) (loader : Loader I L) (M : ℤ) (hM : Even M)
    (h2 : 2 ≤ M) (hseq : loader.sampler = Sampler.sequential) :
    features_avg_test model loader M = Except.error PyError.assertionOrder ↔
      ∃ p, p < (M.fdiv 2).toNat ∧
        passLabels (loader.passes p) ≠ passLabels (loader.passes 0) := by
  have hfd : M.fdiv 2 = M / 2 := Int.fdiv_eq_ediv _ (by norm_num)
  have hhalf : 1 ≤ (M.fdiv 2).toNat := by rw [hfd]; omega
  unfold features_avg_test
  rw [if_pos ((even_check_iff M).mpr hM), if_pos hseq]
  have h0 : (avgLabelRows loader (M.fdiv 2).toNat)[0]? =
      some (passLabels (loader.passes 0)) := by
    have h00 := pairFlat_getElem_even (fun p => passLabels (loader.passes p))
      (fun p => passLabels (loader.passes p)) (M.fdiv 2).toNat 0 hhalf
    simpa [avgLabelRows] using h00
  have hne : avgLabelRows loader (M.fdiv 2).toNat ≠ [] := by
    intro he
    rw [he] at h0
    simp at h0
  rw [if_neg hne]
  have hhead : (avgLabelRows loader (M.fdiv 2).toNat).headD [] =
      passLabels (loader.passes 0) := by
    cases hyt : avgLabelRows loader (M.fdiv 2).toNat with
    | nil => exact absurd hyt hne
    | cons a t =>
      rw [hyt] at h0
      simpa using h0
  simp only [hhead]
  by_cases hall : ((avgLabelRows loader (M.fdiv 2).toNat).all
      fun Li => decide (Li = passLabels (loader.passes 0))) = true
  · rw [if_pos hall]
    constructor
    · intro h
      simp at h
    · rintro ⟨p, hp, hpe⟩
      exfalso
      apply hpe
      have hidx := pairFlat_getElem_even (fun q => passLabels (loader.passes q))
        (fun q => passLabels (loader.passes q)) (M.fdiv 2).toNat p hp
      have hidx2 : (avgLabelRows loader (M.fdiv 2).toNat)[2 * p]? =
          some (passLabels (loader.passes p)) := by
        simpa [avgLabelRows] using hidx
      obtain ⟨hlt, heq⟩ := List.getElem?_eq_some.mp hidx2
      have hmem : passLabels (loader.passes p) ∈
          avgLabelRows loader (M.fdiv 2).toNat := by
        rw [← heq]
        exact List.getElem_mem hlt
      have hres := List.all_eq_true.mp hall _ hmem
      simpa using hres
  · rw [if_neg hall]
    constructor
    · intro _
      have hex : ∃ row ∈ avgLabelRows loader (M.fdiv 2).toNat,
          ¬ row = passLabels (loader.passes 0) := by
        simpa [List.all_eq_true] using hall
      obtain ⟨row, hrm, hrne⟩ := hex
      have hrm2 := (pairFlat_mem (fun q => passLabels (loader.passes q))
        (fun q => passLabels (loader.passes q)) (M.fdiv 2).toNat row).mp
        (by simpa [avgLabelRows] using hrm)
      obtain ⟨p, hp, hrp⟩ := hrm2
      have hrp2 : row = passLabels (loader.passes p) := by
        rcases hrp with h | h <;> exact h
      refine ⟨p, hp, ?_⟩
      rw [← hrp2]
      exact hrne
    · intro _
      rfl

/-- C1: for every even `M >= 2` and a sequential loader that yields `n`
samples per pass with a stable length-`n` label sequence, `features_avg_test`
succeeds and returns `(y, y_true)` whose first dimension is `n` (the number
of samples) and whose second dimension is `M`: the `M//2` passes contribute
one `z_i` row and one `z_j` row each (and each pass's label row twice), and
the first two axes are swapped before returning, so entry `(s, 2k)` of `y` is
sample `s`'s `z_i` feature of pass `k`, entry `(s, 2k + 1)` its `z_j`
feature, and entry `(s, 2k)` of `y_true` is sample `s`'s label of pass `k`. -/
theorem features_avg_test_shape {I F L : Type} [DecidableEq L]
    (model : I → F) (loader : Loader I L) (M : ℤ) (n : ℕ)
    (hM : Even M) (h2 : 2 ≤ M) (hseq : loader.sampler = Sampler.sequential)
    (hsize : ∀ p, passSize (loader.passes p) = n)
    (hlab : ∀ p, passLabels (loader.passes p) = passLabels (loader.passes 0))
    (hlen : (passLabels (loader.passes 0)).length = n) :
    ∃ y yt,
      features_avg_test model loader M = Except.ok (y, yt) ∧
      y.length = n ∧ (∀ r ∈ y, r.length = M.toNat) ∧
      yt.length = n ∧ (∀ r ∈ yt, r.length = M.toNat) ∧
      (∀ s k, s < n → k < (M.fdiv 2).toNat →
        y[s]?.bind (fun row => row[2 * k]?) =
          ((passFeatures model (loader.passes k)).1)[s]? ∧
        y[s]?.bind (fun row => row[2 * k + 1]?) =
          ((passFeatures model (loader.passes k)).2)[s]? ∧
        yt[s]?.bind (fun row => row[2 * k]?) =
          (passLabels (loader.passes k))[s]?) := by
  have hfd : M.fdiv 2 = M / 2 := Int.fdiv_eq_ediv _ (by norm_num)
  have hhalf : 1 ≤ (M.fdiv 2).toNat := by rw [hfd]; omega
  have hM2 : 2 * (M.fdiv 2).toNat = M.toNat := by
    have hM0 := Int.even_iff.mp hM
    rw [hfd]
    omega
  have hyr_len : (avgFeatureRows model loader (M.fdiv 2).toNat).length =
      2 * (M.fdiv 2).toNat := by
    simpa [avgFeatureRows] using pairFlat_length
      (fun p => (passFeatures model (loader.passes p)).1)
      (fun p => (passFeatures model (loader.passes p)).2) (M.fdiv 2).toNat
  have hyr_rows : ∀ r ∈ avgFeatureRows model loader (M.fdiv 2).toNat,
      r.length = n := by
    intro r hr
    have hr2 := (pairFlat_mem (fun p => (passFeatures model (loader.passes p)).1)
      (fun p => (passFeatures model (loader.passes p)).2)
      (M.fdiv 2).toNat r).mp (by simpa [avgFeatureRows] using hr)
    obtain ⟨p, _, hrp⟩ := hr2
    rcases hrp with hrp | hrp
    · rw [hrp, passFeatures_fst_length, hsize p]
    · rw [hrp, passFeatures_snd_length, hsize p]
  have hyt_len : (avgLabelRows loader (M.fdiv 2).toNat).length =
      2 * (M.fdiv 2).toNat := by
    simpa [avgLabelRows] using pairFlat_length
      (fun p => passLabels (loader.passes p))
      (fun p => passLabels (loader.passes p)) (M.fdiv 2).toNat
  have hyt_rows : ∀ r ∈ avgLabelRows loader (M.fdiv 2).toNat,
      r.length = n := by
    intro r hr
    have hr2 := (pairFlat_mem (fun p => passLabels (loader.passes p))
      (fun p => passLabels (loader.passes p)) (M.fdiv 2).toNat r).mp
      (by simpa [avgLabelRows] using hr)
    obtain ⟨p, _, hrp⟩ := hr2
    have hrp2 : r = passLabels (loader.passes p) := by
      rcases hrp with h | h <;> exact h
    rw [hrp2, hlab p, hlen]
  have h0 : (avgLabelRows loader (M.fdiv 2).toNat)[0]? =
      some (passLabels (loader.passes 0)) := by
    have h00 := pairFlat_getElem_even (fun p => passLabels (loader.passes p))
      (fun p => passLabels (loader.passes p)) (M.fdiv 2).toNat 0 hhalf
    simpa [avgLabelRows] using h00
  have hne : avgLabelRows loader (M.fdiv 2).toNat ≠ [] := by
    intro he
    rw [he] at h0
    simp at h0
  have hne2 : avgFeatureRows model loader (M.fdiv 2).toNat ≠ [] := by
    intro he
    rw [he] at hyr_len
    simp at hyr_len
    omega
  have hhead : (avgLabelRows loader (M.fdiv 2).toNat).headD [] =
      passLabels (loader.passes 0) := by
    cases hyt : avgLabelRows loader (M.fdiv 2).toNat with
    | nil => exact absurd hyt hne
    | cons a t =>
      rw [hyt] at h0
      simpa using h0
  have hall : ((avgLabelRows loader (M.fdiv 2).toNat).all
      fun Li => decide (Li = passLabels (loader.passes 0))) = true := by
    rw [List.all_eq_true]
    intro row hrow
    have hr2 := (pairFlat_mem (fun p => passLabels (loader.passes p))
      (fun p => passLabels (loader.passes p)) (M.fdiv 2).toNat row).mp
      (by simpa [avgLabelRows] using hrow)
    obtain ⟨p, _, hrp⟩ := hr2
    have hrp2 : row = passLabels (loader.passes p) := by
      rcases hrp with h | h <;> exact h
    simp [hrp2, hlab p]
  refine ⟨swapaxes (avgFeatureRows model loader (M.fdiv 2).toNat),
    swapaxes (avgLabelRows loader (M.fdiv 2).toNat), ?_, ?_, ?_, ?_, ?_, ?_⟩
  · unfold features_avg_test
    rw [if_pos ((even_check_iff M).mpr hM), if_pos hseq, if_neg hne]
    simp only [hhead]
    rw [if_pos hall]
  · exact swapaxes_length _ n hyr_rows hne2
  · intro r hr
    rw [swapaxes_row_length _ n hyr_rows r hr, hyr_len, hM2]
  · exact swapaxes_length _ n hyt_rows hne
  · intro r hr
    rw [swapaxes_row_length _ n hyt_rows r hr, hyt_len, hM2]
  · intro s k hs hk
    have hk2 : 2 * k < (avgFeatureRows model loader (M.fdiv 2).toNat).length := by
      rw [hyr_len]
      omega
    have hk2o : 2 * k + 1 <
        (avgFeatureRows model loader (M.fdiv 2).toNat).length := by
      rw [hyr_len]
      omega
    have hk2t : 2 * k < (avgLabelRows loader (M.fdiv 2).toNat).length := by
      rw [hyt_len]
      omega
    refine ⟨?_, ?_, ?_⟩
    · rw [swapaxes_entry _ n hyr_rows s (2 * k) hs hk2]
      have hidx := pairFlat_getElem_even
        (fun p => (passFeatures model (loader.passes p)).1)
        (fun p => (passFeatures model (loader.passes p)).2) (M.fdiv 2).toNat k hk
      have hidx2 : (avgFeatureRows model loader (M.fdiv 2).toNat)[2 * k]? =
          some ((passFeatures model (loader.passes k)).1) := by
        simpa [avgFeatureRows] using hidx
      rw [hidx2, Option.some_bind]
    · rw [swapaxes_entry _ n hyr_rows s (2 * k + 1) hs hk2o]
      have hidx := pairFlat_getElem_odd
        (fun p => (passFeatures model (loader.passes p)).1)
        (fun p => (passFeatures model (loader.passes p)).2) (M.fdiv 2).toNat k hk
      have hidx2 : (avgFeatureRows model loader (M.fdiv 2).toNat)[2 * k + 1]? =
          some ((passFeatures model (loader.passes k)).2) := by
        simpa [avgFeatureRows] using hidx
      rw [hidx2, Option.some_bind]
    · rw [swapaxes_entry _ n hyt_rows s (2 * k) hs hk2t]
      have hidx := pairFlat_getElem_even
        (fun p => passLabels (loader.passes p))
        (fun p => passLabels (loader.passes p)) (M.fdiv 2).toNat k hk
      have hidx2 : (avgLabelRows loader (M.fdiv 2).toNat)[2 * k]? =
          some (passLabels (loader.passes k)) := by
        simpa [avgLabelRows] using hidx
      rw [hidx2, Option.some_bind]

/-! ### Dictionary and loop-fold lemmas -/

theorem keySum_cons (p : String × ℚ) (l : List (String × ℚ)) (k : String) :
    keySum (p :: l) k = (if p.1 = k then p.2 else 0) + keySum l k := by
  simp [keySum]

theorem keySum_append (l1 l2 : List (String × ℚ)) (k : String) :
    keySum (l1 ++ l2) k = keySum l1 k + keySum l2 k := by
  simp [keySum]

theorem valueOf_dictAdd (vs : Values) (nm : String) (v : ℚ) (k : String) :
    valueOf (dictAdd vs nm v) k = valueOf vs k + (if nm = k then v else 0) := by
  induction vs with
  | nil => simp [dictAdd, valueOf]
  | cons p t ih =>
    obtain ⟨pk, pv⟩ := p
    simp only [dictAdd]
    by_cases h : pk = nm
    · rw [if_pos h]
      subst h
      simp only [valueOf]
      by_cases hk : pk = k
      · simp [hk]
      · simp [hk]
    · rw [if_neg h]
      simp only [valueOf]
      by_cases hk : pk = k
      · have hnk : ¬ nm = k := by
          intro he
          exact h (hk.trans he.symm)
        simp [hk, hnk]
      · simp [hk, ih]

theorem valueOf_dictAddAll (vs : Values) (l : List (String × ℚ)) (k : String) :
    valueOf (dictAddAll vs l) k = valueOf vs k + keySum l k := by
  induction l generalizing vs with
  | nil => simp [dictAddAll, keySum]
  | cons p t ih =>
    rw [show dictAddAll vs (p :: t) = dictAddAll (dictAdd vs p.1 p.2) t from rfl,
      ih, valueOf_dictAdd, keySum_cons]
    ring

/-- The total increments the `train` loop body makes to the metric dict for
one batch: the scaled auxiliary losses, then (when the loss returned extras)
the scaled metric values. -/
def trainContrib {I F E L O : Type} (m : SimCLR I F E L O) (nb : ℕ)
    (d : DataItem I L) : List (String × ℚ) :=
  ((m.loss (lossCallOf m d)).aux.map (fun p => (p.1, p.2 / (nb : ℚ)))) ++
    (match (m.loss (lossCallOf m d)).extra.1, (m.loss (lossCallOf m d)).extra.2 with
     | some lg, some tg => m.metrics.map (fun p => (p.1, p.2 lg tg / (nb : ℚ)))
     | _, _ => [])

theorem valueOf_trainStep {I F E L O : Type} (m : SimCLR I F E L O) (nb : ℕ)
    (acc : TrainAcc F L O) (d : DataItem I L) (k : String) :
    valueOf (trainStep m nb acc d).values k =
      valueOf acc.values k + keySum (trainContrib m nb d) k := by
  dsimp only [trainStep, trainContrib, update_metrics]
  cases he1 : (m.loss (lossCallOf m d)).extra.1 with
  | none =>
    dsimp only
    simp [valueOf_dictAddAll, keySum, List.map_map, Function.comp_def]
  | some lg =>
    cases he2 : (m.loss (lossCallOf m d)).extra.2 with
    | none =>
      dsimp only
      simp [valueOf_dictAddAll, keySum, List.map_map, Function.comp_def]
    | some tg =>
      dsimp only
      simp [valueOf_dictAddAll, keySum, List.map_map, Function.comp_def]
      ring

theorem train_values_fold {I F E L O : Type} (m : SimCLR I F E L O) (nb : ℕ)
    (loader : List (DataItem I L)) (acc : TrainAcc F L O) (k : String) :
    valueOf ((loader.foldl (trainStep m nb) acc).values) k =
      valueOf acc.values k +
        (loader.map (fun d => keySum (trainContrib m nb d) k)).sum := by
  induction loader generalizing acc with
  | nil => simp
  | cons d t ih =>
    rw [List.foldl_cons, ih, valueOf_trainStep, List.map_cons, List.sum_cons]
    ring

theorem train_losses_fold {I F E L O : Type} (m : SimCLR I F E L O) (nb : ℕ)
    (loader : List (DataItem I L)) (acc : TrainAcc F L O) :
    (loader.foldl (trainStep m nb) acc).losses =
      acc.losses ++ loader.map (fun d => (m.loss (lossCallOf m d)).loss) := by
  induction loader generalizing acc with
  | nil => simp
  | cons d t ih =>
    rw [List.foldl_cons, ih]
    simp [trainStep]

theorem train_calls_fold {I F E L O : Type} (m : SimCLR I F E L O) (nb : ℕ)
    (loader : List (DataItem I L)) (acc : TrainAcc F L O) :
    (loader.foldl (trainStep m nb) acc).calls =
      acc.calls ++ loader.map (lossCallOf m) := by
  induction loader generalizing acc with
  | nil => simp
  | cons d t ih =>
    rw [List.foldl_cons, ih]
    simp [trainStep]

theorem train_opt_fold {I F E L O : Type} (m : SimCLR I F E L O) (nb : ℕ)
    (loader : List (DataItem I L)) (acc : TrainAcc F L O) :
    (loader.foldl (trainStep m nb) acc).opt =
      loader.foldl
        (fun o d => m.step (m.backward (m.zero_grad o) (lossCallOf m d)))
        acc.opt := by
  induction loader generalizing acc with
  | nil => rfl
  | cons d t ih =>
    rw [List.foldl_cons, ih, List.foldl_cons]
    rfl

/-- The total increments the `test` loop body makes to the metric dict for
one batch: (when the loss returned extras) the scaled metric values under
suffixed keys, then the scaled auxiliary losses under suffixed keys. -/
def testContrib {I F E L O : Type} (m : SimCLR I F E L O) (nb : ℕ)
    (d : DataItem I L) : List (String × ℚ) :=
  (match (m.loss (lossCallOf m d)).extra.1, (m.loss (lossCallOf m d)).extra.2 with
   | some lg, some tg =>
      m.metrics.map (fun p =>
        (p.1 ++ " on validation set", p.2 lg tg / (nb : ℚ)))
   | _, _ => []) ++
  ((m.loss (lossCallOf m d)).aux.map (fun p =>
    (p.1 ++ " on validation set", p.2 / (nb : ℚ))))

theorem valueOf_testStep {I F E L O : Type} (m : SimCLR I F E L O) (nb : ℕ)
    (acc : TestState I F E L) (d : DataItem I L) (k : String) :
    valueOf (testStep m nb acc d).values k =
      valueOf acc.values k + keySum (testContrib m nb d) k := by
  dsimp only [testStep, testContrib, update_metrics]
  cases he1 : (m.loss (lossCallOf m d)).extra.1 with
  | none =>
    dsimp only
    simp [valueOf_dictAddAll, keySum, List.map_map, Function.comp_def]
  | some lg =>
    cases he2 : (m.loss (lossCallOf m d)).extra.2 with
    | none =>
      dsimp only
      simp [valueOf_dictAddAll, keySum, List.map_map, Function.comp_def]
    | some tg =>
      dsimp only
      simp [valueOf_dictAddAll, keySum, List.map_map, Function.comp_def]
      ring

theorem test_values_fold {I F E L O : Type} (m : SimCLR I F E L O) (nb : ℕ)
    (loader : List (DataItem I L)) (acc : TestState I F E L) (k : String) :
    valueOf ((loader.foldl (testStep m nb) acc).values) k =
      valueOf acc.values k +
        (loader.map (fun d => keySum (testContrib m nb d) k)).sum := by
  induction loader generalizing acc with
  | nil => simp
  | cons d t ih =>
    rw [List.foldl_cons, ih, valueOf_testStep, List.map_cons, List.sum_cons]
    ring

theorem test_loss_fold {I F E L O : Type} (m : SimCLR I F E L O) (nb : ℕ)
    (loader : List (DataItem I L)) (acc : TestState I F E L) :
    (loader.foldl (testStep m nb) acc).loss =
      acc.loss +
        (loader.map (fun d => (m.loss (lossCallOf m d)).loss / (nb : ℚ))).sum := by
  induction loader generalizing acc with
  | nil => simp
  | cons d t ih =>
    rw [List.foldl_cons, ih]
    dsimp only [testStep]
    rw [List.map_cons, List.sum_cons]
    ring

theorem test_calls_fold {I F E L O : Type} (m : SimCLR I F E L O) (nb : ℕ)
    (loader : List (DataItem I L)) (acc : TestState I F E L) :
    (loader.foldl (testStep m nb) acc).calls =
      acc.calls ++ loader.map (lossCallOf m) := by
  induction loader generalizing acc with
  | nil => simp
  | cons d t ih =>
    rw [List.foldl_cons, ih]
    simp [testStep]

theorem test_frame_fold {I F E L O : Type} (m : SimCLR I F E L O) (nb : ℕ)
    (loader : List (DataItem I L)) (acc : TestState I F E L) :
    (loader.foldl (testStep m nb) acc).y = acc.y ∧
    (loader.foldl (testStep m nb) acc).y_true = acc.y_true ∧
    (loader.foldl (testStep m nb) acc).X = acc.X := by
  induction loader generalizing acc with
  | nil => exact ⟨rfl, rfl, rfl⟩
  | cons d t ih =>
    rw [List.foldl_cons]
    exact ih (testStep m nb acc d)

theorem string_append_cancel {a b s : String} (h : a ++ s = b ++ s) :
    a = b := by
  have hd : a.data ++ s.data = b.data ++ s.data := by
    have h2 := congrArg String.data h
    simpa using h2
  exact String.ext (List.append_cancel_right hd)

theorem update_metrics_none_eq {E : Type}
    (metrics : List (String × (E → E → ℚ))) (values : Values) (nb : ℕ)
    (lg tg : Option E) (val : Bool) (h : lg = none ∨ tg = none) :
    update_metrics metrics values nb lg tg val = values := by
  rcases h with h | h
  · subst h
    cases tg <;> rfl
  · subst h
    cases lg <;> rfl

theorem keySum_eq_zero {l : List (String × ℚ)} {k : String}
    (h : ∀ p ∈ l, p.1 ≠ k) : keySum l k = 0 := by
  induction l with
  | nil => rfl
  | cons p t ih =>
    rw [keySum_cons, if_neg (h p (by simp)), ih (fun q hq => h q (by simp [hq]))]
    ring

theorem keySum_map_nodup {β : Type} (l : List (String × β))
    (g : String × β → ℚ) (nm : String) (x : β) (hmem : (nm, x) ∈ l)
    (hnd : (l.map Prod.fst).Nodup) :
    keySum (l.map (fun p => (p.1, g p))) nm = g (nm, x) := by
  induction l with
  | nil => cases hmem
  | cons p t ih =>
    rw [List.map_cons, keySum_cons]
    rw [List.map_cons] at hnd
    have hnd2 := List.nodup_cons.mp hnd
    rcases List.mem_cons.mp hmem with he | ht
    · have hp : p = (nm, x) := he.symm
      subst hp
      rw [if_pos rfl, keySum_eq_zero]
      · ring
      · intro q hq
        obtain ⟨q0, hq0, hq0e⟩ := List.mem_map.mp hq
        rw [← hq0e]
        intro hc
        exact hnd2.1 (hc ▸ List.mem_map.mpr ⟨q0, hq0, rfl⟩)
    · have hp1 : ¬ p.1 = nm := by
        intro hc
        exact hnd2.1 (hc ▸ List.mem_map.mpr ⟨(nm, x), ht, rfl⟩)
      rw [if_neg hp1, ih ht hnd2.2]
      ring

theorem sum_div_map {α : Type} (l : List α) (f : α → ℚ) (c : ℚ) :
    (l.map (fun d => f d / c)).sum = (l.map f).sum / c := by
  rw [← list_sum_div, List.map_map]
  rfl

theorem keySum_suffix_scale (l : List (String × ℚ)) (s a : String) (c : ℚ) :
    keySum (l.map (fun q => (q.1 ++ s, q.2 / c))) (a ++ s) =
      keySum l a / c := by
  induction l with
  | nil => simp [keySum]
  | cons q t ih =>
    rw [List.map_cons, keySum_cons, keySum_cons, ih]
    by_cases h : q.1 = a
    · rw [if_pos (by rw [h]), if_pos h, add_div]
    · rw [if_neg (fun he => h (string_append_cancel he)), if_neg h]
      simp

/-- C5: `train` processes every batch of the loader with the per-batch cycle
`zero_grad`, forward of both augmented views (the recorded loss call carries
the model outputs of both views), loss evaluation, `backward`,
`optimizer.step()` — one full cycle per batch, in loader order — and returns
as its first component the arithmetic mean of the per-batch loss values over
all batches. -/
theorem train_mean_loss_and_cycle {I F E L O : Type} (m : SimCLR I F E L O)
    (loader : List (DataItem I L)) (o0 : O) (_h : loader ≠ []) :
    (train m loader o0).loss =
      npMean (loader.map (fun d => (m.loss (lossCallOf m d)).loss)) ∧
    (train m loader o0).calls = loader.map (lossCallOf m) ∧
    (train m loader o0).opt =
      loader.foldl
        (fun o d => m.step (m.backward (m.zero_grad o) (lossCallOf m d)))
        o0 := by
  refine ⟨?_, ?_, ?_⟩
  · dsimp only [train]
    rw [train_losses_fold]
    simp
  · dsimp only [train]
    rw [train_calls_fold]
    simp
  · dsimp only [train]
    rw [train_opt_fold]

/-- C9: for every loader, `test` returns `y`, `y_true` and `X` as empty
lists: the code that would populate them is absent (commented out), so the
first three components of `test`'s return value are always empty. -/
theorem test_returns_empty_predictions {I F E L O : Type}
    (m : SimCLR I F E L O) (loader : List (DataItem I L)) :
    (test m loader).y = [] ∧ (test m loader).y_true = [] ∧
      (test m loader).X = [] := by
  dsimp only [test]
  exact test_frame_fold m loader.length loader ⟨[], [], [], 0, [], []⟩

/-- C10: `update_metrics` leaves the `values` dict entirely unchanged
whenever `logits` or `target` is `None`; in particular, when the loss
callable returns only the loss (no extra outputs) and reports no auxiliary
losses, a full `train` or `test` pass leaves `values` empty. -/
theorem update_metrics_frame {I F E L O : Type} (m : SimCLR I F E L O)
    (loader : List (DataItem I L)) (o0 : O)
    (hext : ∀ c : LossCall F L,
      (m.loss c).extra.1 = none ∨ (m.loss c).extra.2 = none)
    (haux : ∀ c : LossCall F L, (m.loss c).aux = []) :
    (∀ (metrics : List (String × (E → E → ℚ))) (values : Values) (nb : ℕ)
        (lg tg : Option E) (val : Bool), (lg = none ∨ tg = none) →
      update_metrics metrics values nb lg tg val = values) ∧
    (train m loader o0).values = [] ∧
    (test m loader).values = [] := by
  refine ⟨fun metrics values nb lg tg val h =>
    update_metrics_none_eq metrics values nb lg tg val h, ?_, ?_⟩
  · have hstep : ∀ (acc : TrainAcc F L O) (d : DataItem I L),
        (trainStep m loader.length acc d).values = acc.values := by
      intro acc d
      dsimp only [trainStep]
      rw [haux (lossCallOf m d),
        update_metrics_none_eq _ _ _ _ _ _ (hext (lossCallOf m d))]
      rfl
    have hfold : ∀ (l : List (DataItem I L)) (acc : TrainAcc F L O),
        acc.values = [] →
        (l.foldl (trainStep m loader.length) acc).values = [] := by
      intro l
      induction l with
      | nil => intro acc h; exact h
      | cons d t ih =>
        intro acc h
        rw [List.foldl_cons]
        exact ih _ (by rw [hstep acc d]; exact h)
    dsimp only [train]
    exact hfold loader _ rfl
  · have hstep : ∀ (acc : TestState I F E L) (d : DataItem I L),
        (testStep m loader.length acc d).values = acc.values := by
      intro acc d
      dsimp only [testStep]
      rw [haux (lossCallOf m d),
        update_metrics_none_eq _ _ _ _ _ _ (hext (lossCallOf m d))]
      rfl
    have hfold : ∀ (l : List (DataItem I L)) (acc : TestState I F E L),
        acc.values = [] →
        (l.foldl (testStep m loader.length) acc).values = [] := by
      intro l
      induction l with
      | nil => intro acc h; exact h
      | cons d t ih =>
        intro acc h
        rw [List.foldl_cons]
        exact ih _ (by rw [hstep acc d]; exact h)
    dsimp only [test]
    exact hfold loader _ rfl

/-- C8: in both `train` and `test` the loss callable is invoked once per
batch, in loader order, with the labels argument if and only if the batch's
labels field is present: with labels it is called as `loss(z_i, z_j,
labels)` and without as `loss(z_i, z_j)`, where `(z_i, z_j)` are the model
outputs for the two augmented views. -/
theorem loss_call_labels_iff {I F E L O : Type} (m : SimCLR I F E L O)
    (loader : List (DataItem I L)) (o0 : O) :
    (train m loader o0).calls = loader.map (lossCallOf m) ∧
    (test m loader).calls = loader.map (lossCallOf m) ∧
    (∀ d : DataItem I L, (lossCallOf m d).hasLabels = d.labels.isSome) ∧
    (∀ (d : DataItem I L) (ls : List L), d.labels = some ls →
      lossCallOf m d = LossCall.withLabels
        (d.inputs.map (fun p => m.model p.1))
        (d.inputs.map (fun p => m.model p.2)) ls) ∧
    (∀ d : DataItem I L, d.labels = none →
      lossCallOf m d = LossCall.noLabels
        (d.inputs.map (fun p => m.model p.1))
        (d.inputs.map (fun p => m.model p.2))) := by
  refine ⟨?_, ?_, ?_, ?_, ?_⟩
  · dsimp only [train]
    rw [train_calls_fold]
    simp
  · dsimp only [test]
    rw [test_calls_fold]
    simp
  · intro d
    cases hl : d.labels <;> simp [lossCallOf, hl, LossCall.hasLabels]
  · intro d ls h
    simp [lossCallOf, h, get_output_pairs]
  · intro d h
    simp [lossCallOf, h, get_output_pairs]

theorem keySum_scale (l : List (String × ℚ)) (a : String) (c : ℚ) :
    keySum (l.map (fun q => (q.1, q.2 / c))) a = keySum l a / c := by
  induction l with
  | nil => simp [keySum]
  | cons q t ih =>
    rw [List.map_cons, keySum_cons, keySum_cons, ih]
    by_cases h : q.1 = a
    · rw [if_pos h, if_pos h, add_div]
    · rw [if_neg h, if_neg h]
      simp

theorem string_suffix_injective (s : String) :
    Function.Injective (fun x : String => x ++ s) := by
  intro x y hxy
  exact string_append_cancel hxy

theorem trainContrib_eq_of_extra {I F E L O : Type} (m : SimCLR I F E L O)
    (nb : ℕ) (d : DataItem I L) (lg0 tg0 : E)
    (he : (m.loss (lossCallOf m d)).extra = (some lg0, some tg0)) :
    trainContrib m nb d =
      ((m.loss (lossCallOf m d)).aux.map (fun p => (p.1, p.2 / (nb : ℚ)))) ++
        m.metrics.map (fun p => (p.1, p.2 lg0 tg0 / (nb : ℚ))) := by
  unfold trainContrib
  rw [he]

theorem testContrib_eq_of_extra {I F E L O : Type} (m : SimCLR I F E L O)
    (nb : ℕ) (d : DataItem I L) (lg0 tg0 : E)
    (he : (m.loss (lossCallOf m d)).extra = (some lg0, some tg0)) :
    testContrib m nb d =
      (m.metrics.map (fun p =>
        (p.1 ++ " on validation set", p.2 lg0 tg0 / (nb : ℚ)))) ++
        ((m.loss (lossCallOf m d)).aux.map (fun p =>
          (p.1 ++ " on validation set", p.2 / (nb : ℚ)))) := by
  unfold testContrib
  rw [he]

/-- C6: when the loss callable returns extra outputs `(logits, target)` on
every batch (and metric and auxiliary-loss names do not collide), the
`values` dict returned by `train` (and by `test`, under keys suffixed with
`" on validation set"`) maps each metric name to the sum over batches of
`metric(logits, target)` divided by the number of batches — the batch mean
of the metric — and the auxiliary losses are accumulated the same way. -/
theorem metric_aggregation_mean {I F E L O : Type} (m : SimCLR I F E L O)
    (loader : List (DataItem I L)) (o0 : O) (lg tg : DataItem I L → E)
    (hex : ∀ d ∈ loader,
      (m.loss (lossCallOf m d)).extra = (some (lg d), some (tg d)))
    (hnd : (m.metrics.map Prod.fst).Nodup)
    (haux : ∀ d ∈ loader, ∀ q ∈ (m.loss (lossCallOf m d)).aux,
      q.1 ∉ m.metrics.map Prod.fst) :
    (∀ nm mt, (nm, mt) ∈ m.metrics →
      valueOf (train m loader o0).values nm =
        (loader.map (fun d => mt (lg d) (tg d))).sum / (loader.length : ℚ) ∧
      valueOf (test m loader).values (nm ++ " on validation set") =
        (loader.map (fun d => mt (lg d) (tg d))).sum / (loader.length : ℚ)) ∧
    (∀ a : String, a ∉ m.metrics.map Prod.fst →
      valueOf (train m loader o0).values a =
        (loader.map (fun d => keySum (m.loss (lossCallOf m d)).aux a)).sum /
          (loader.length : ℚ) ∧
      valueOf (test m loader).values (a ++ " on validation set") =
        (loader.map (fun d => keySum (m.loss (lossCallOf m d)).aux a)).sum /
          (loader.length : ℚ)) := by
  constructor
  · intro nm mt hmem
    have hnm_names : nm ∈ m.metrics.map Prod.fst :=
      List.mem_map.mpr ⟨(nm, mt), hmem, rfl⟩
    constructor
    · dsimp only [train]
      rw [train_values_fold]
      have hmap : List.map
          (fun d => keySum (trainContrib m loader.length d) nm) loader =
          List.map (fun d => mt (lg d) (tg d) / (loader.length : ℚ)) loader := by
        apply List.map_congr_left
        intro d hd
        rw [trainContrib_eq_of_extra m loader.length d (lg d) (tg d) (hex d hd),
          keySum_append]
        have hz : keySum ((m.loss (lossCallOf m d)).aux.map
            (fun p => (p.1, p.2 / (loader.length : ℚ)))) nm = 0 := by
          apply keySum_eq_zero
          intro q hq
          obtain ⟨q0, hq0, hq0e⟩ := List.mem_map.mp hq
          rw [← hq0e]
          intro hc
          exact haux d hd q0 hq0 (hc ▸ hnm_names)
        rw [hz, keySum_map_nodup m.metrics
          (fun p => p.2 (lg d) (tg d) / (loader.length : ℚ)) nm mt hmem hnd]
        ring
      rw [hmap, sum_div_map]
      simp [valueOf]
    · dsimp only [test]
      rw [test_values_fold]
      have hmap : List.map
          (fun d => keySum (testContrib m loader.length d)
            (nm ++ " on validation set")) loader =
          List.map (fun d => mt (lg d) (tg d) / (loader.length : ℚ)) loader := by
        apply List.map_congr_left
        intro d hd
        rw [testContrib_eq_of_extra m loader.length d (lg d) (tg d) (hex d hd),
          keySum_append]
        have hz : keySum ((m.loss (lossCallOf m d)).aux.map
            (fun p => (p.1 ++ " on validation set", p.2 / (loader.length : ℚ))))
            (nm ++ " on validation set") = 0 := by
          apply keySum_eq_zero
          intro q hq
          obtain ⟨q0, hq0, hq0e⟩ := List.mem_map.mp hq
          rw [← hq0e]
          intro hc
          exact haux d hd q0 hq0 ((string_append_cancel hc) ▸ hnm_names)
        have hrw : m.metrics.map (fun p =>
            (p.1 ++ " on validation set", p.2 (lg d) (tg d) / (loader.length : ℚ))) =
            (m.metrics.map (fun p => (p.1 ++ " on validation set", p.2))).map
              (fun q => (q.1, q.2 (lg d) (tg d) / (loader.length : ℚ))) := by
          rw [List.map_map]
          rfl
        have hnd2 : ((m.metrics.map
            (fun p => (p.1 ++ " on validation set", p.2))).map Prod.fst).Nodup := by
          have hmm : (m.metrics.map
              (fun p => (p.1 ++ " on validation set", p.2))).map Prod.fst =
              (m.metrics.map Prod.fst).map
                (fun x => x ++ " on validation set") := by
            rw [List.map_map, List.map_map]
            rfl
          rw [hmm]
          exact List.Nodup.map (string_suffix_injective _) hnd
        rw [hrw, hz, keySum_map_nodup
          (m.metrics.map (fun p => (p.1 ++ " on validation set", p.2)))
          (fun q => q.2 (lg d) (tg d) / (loader.length : ℚ))
          (nm ++ " on validation set") mt
          (List.mem_map.mpr ⟨(nm, mt), hmem, rfl⟩) hnd2]
        ring
      rw [hmap, sum_div_map]
      simp [valueOf]
  · intro a ha
    constructor
    · dsimp only [train]
      rw [train_values_fold]
      have hmap : List.map
          (fun d => keySum (trainContrib m loader.length d) a) loader =
          List.map (fun d =>
            keySum (m.loss (lossCallOf m d)).aux a / (loader.length : ℚ))
            loader := by
        apply List.map_congr_left
        intro d hd
        rw [trainContrib_eq_of_extra m loader.length d (lg d) (tg d) (hex d hd),
          keySum_append]
        have hz : keySum (m.metrics.map
            (fun p => (p.1, p.2 (lg d) (tg d) / (loader.length : ℚ)))) a = 0 := by
          apply keySum_eq_zero
          intro q hq
          obtain ⟨q0, hq0, hq0e⟩ := List.mem_map.mp hq
          rw [← hq0e]
          intro hc
          exact ha (hc ▸ List.mem_map.mpr ⟨q0, hq0, rfl⟩)
        rw [hz, keySum_scale]
        ring
      rw [hmap, sum_div_map]
      simp [valueOf]
    · dsimp only [test]
      rw [test_values_fold]
      have hmap : List.map
          (fun d => keySum (testContrib m loader.length d)
            (a ++ " on validation set")) loader =
          List.map (fun d =>
            keySum (m.loss (lossCallOf m d)).aux a / (loader.length : ℚ))
            loader := by
        apply List.map_congr_left
        intro d hd
        rw [testContrib_eq_of_extra m loader.length d (lg d) (tg d) (hex d hd),
          keySum_append]
        have hz : keySum (m.metrics.map (fun p =>
            (p.1 ++ " on validation set", p.2 (lg d) (tg d) / (loader.length : ℚ))))
            (a ++ " on validation set") = 0 := by
          apply keySum_eq_zero
          intro q hq
          obtain ⟨q0, hq0, hq0e⟩ := List.mem_map.mp hq
          rw [← hq0e]
          intro hc
          exact ha ((string_append_cancel hc) ▸
            List.mem_map.mpr ⟨q0, hq0, rfl⟩)
        rw [hz, keySum_suffix_scale]
        ring
      rw [hmap, sum_div_map]
      simp [valueOf]

/-- C7: for every index, `SimCLROpenBHB.__getitem__` (and likewise
`SimCLRSubOpenBHB.__getitem__`) returns a pair whose first component stacks
two separately drawn augmented views of the sample at `idx` (the parent
dataset's `__getitem__` evaluated at the same `idx` under two successive
RNG states) along a new leading axis of size 2, and whose second component
is a label obtained from the parent dataset's `__getitem__` at the same
`idx`. -/
theorem simclr_getitem_pairs {X Y : Type} (parentO parentS : ℕ → ℕ → X × Y)
    (idx s : ℕ) :
    (simCLROpenBHB_getitem parentO idx s).1 =
      [(parentO idx s).1, (parentO idx (s + 1)).1] ∧
    (simCLROpenBHB_getitem parentO idx s).1.length = 2 ∧
    (simCLROpenBHB_getitem parentO idx s).2 = (parentO idx (s + 1)).2 ∧
    (simCLRSubOpenBHB_getitem parentS idx s).1 =
      [(parentS idx s).1, (parentS idx (s + 1)).1] ∧
    (simCLRSubOpenBHB_getitem parentS idx s).1.length = 2 ∧
    (simCLRSubOpenBHB_getitem parentS idx s).2 = (parentS idx (s + 1)).2 :=
  ⟨rfl, rfl, rfl, rfl, rfl, rfl⟩

/-! ### Concrete instances for the witnesses -/

/-- A single-batch, single-sample sequential loader with stable labels. -/
def seqLoader : Loader ℕ ℕ :=
  ⟨Sampler.sequential, fun _ => [⟨[(1, 2)], some [7]⟩]⟩

/-- A sequential loader whose label sequence differs between passes. -/
def badLoader : Loader ℕ ℕ :=
  ⟨Sampler.sequential, fun p => [⟨[(0, 0)], some [p]⟩]⟩

/-- A loader with a non-sequential sampler. -/
def nonseqLoader : Loader ℕ ℕ :=
  ⟨Sampler.nonsequential, fun _ => [⟨[(1, 2)], some [7]⟩]⟩

/-- A batch with labels present. -/
def demoBatch : DataItem ℕ ℕ := ⟨[(1, 2)], some [7]⟩

/-- A trainer whose loss reports extras and one auxiliary loss. -/
def demoSim : SimCLR ℕ ℕ ℕ ℕ ℕ where
  model := fun x => x + 1
  loss := fun _ => ⟨2, (some 1, some 2), [("aux", 4)]⟩
  metrics := [("acc", fun e t => (e : ℚ) + t)]
  zero_grad := fun o => o
  backward := fun o _ => o + 1
  step := fun o => o + 10

/-- A trainer whose loss returns only the scalar loss and no aux losses. -/
def plainSim : SimCLR ℕ ℕ ℕ ℕ ℕ where
  model := fun x => x + 1
  loss := fun _ => ⟨2, (none, none), []⟩
  metrics := []
  zero_grad := fun o => o
  backward := fun o _ => o + 1
  step := fun o => o + 10

/-- Witness for C1 at a concrete sequential loader (`n = 1`, `M = 2`). -/
theorem features_avg_test_shape_witness :
    Even (2 : ℤ) ∧ (2 : ℤ) ≤ 2 ∧ seqLoader.sampler = Sampler.sequential ∧
    (∃ y yt,
      features_avg_test (fun x : ℕ => x + 1) seqLoader 2 = Except.ok (y, yt) ∧
      y.length = 1 ∧ (∀ r ∈ y, r.length = (2 : ℤ).toNat) ∧
      yt.length = 1 ∧ (∀ r ∈ yt, r.length = (2 : ℤ).toNat) ∧
      (∀ s k, s < 1 → k < ((2 : ℤ).fdiv 2).toNat →
        y[s]?.bind (fun row => row[2 * k]?) =
          ((passFeatures (fun x : ℕ => x + 1) (seqLoader.passes k)).1)[s]? ∧
        y[s]?.bind (fun row => row[2 * k + 1]?) =
          ((passFeatures (fun x : ℕ => x + 1) (seqLoader.passes k)).2)[s]? ∧
        yt[s]?.bind (fun row => row[2 * k]?) =
          (passLabels (seqLoader.passes k))[s]?)) := by
  refine ⟨⟨1, rfl⟩, by decide, rfl, ?_⟩
  exact features_avg_test_shape (fun x : ℕ => x + 1) seqLoader 2 1 ⟨1, rfl⟩
    (by decide) rfl (fun p => rfl) (fun p => rfl) rfl

/-- Witness for C3 at a concrete non-sequential loader and even `M = 4`. -/
theorem features_avg_test_valueError_witness :
    Even (4 : ℤ) ∧
    ((features_avg_test (fun x : ℕ => x + 1) nonseqLoader 4 =
        Except.error PyError.valueError ↔
      nonseqLoader.sampler ≠ Sampler.sequential) ∧
    (∀ M0 : ℤ, nonseqLoader.sampler = Sampler.sequential →
      features_avg_test (fun x : ℕ => x + 1) nonseqLoader M0 ≠
        Except.error PyError.valueError)) :=
  ⟨⟨2, rfl⟩,
    features_avg_test_valueError_iff (fun x : ℕ => x + 1) nonseqLoader 4 ⟨2, rfl⟩⟩

/-- Witness for C4 at a concrete loader whose second pass yields different
labels (`M = 4`): the order assertion fires. -/
theorem features_avg_test_order_witness :
    Even (4 : ℤ) ∧ (2 : ℤ) ≤ 4 ∧ badLoader.sampler = Sampler.sequential ∧
    features_avg_test (fun x : ℕ => x + 1) badLoader 4 =
      Except.error PyError.assertionOrder := by
  refine ⟨⟨2, rfl⟩, by decide, rfl, ?_⟩
  exact (features_avg_test_order_check (fun x : ℕ => x + 1) badLoader 4
    ⟨2, rfl⟩ (by decide) rfl).mpr ⟨1, by decide, by decide⟩

/-- Witness for C5 at a concrete one-batch loader. -/
theorem train_mean_loss_witness :
    ([demoBatch] : List (DataItem ℕ ℕ)) ≠ [] ∧
    ((train demoSim [demoBatch] 0).loss =
      npMean (([demoBatch] : List (DataItem ℕ ℕ)).map
        (fun d => (demoSim.loss (lossCallOf demoSim d)).loss)) ∧
    (train demoSim [demoBatch] 0).calls =
      ([demoBatch] : List (DataItem ℕ ℕ)).map (lossCallOf demoSim) ∧
    (train demoSim [demoBatch] 0).opt =
      ([demoBatch] : List (DataItem ℕ ℕ)).foldl
        (fun o d => demoSim.step
          (demoSim.backward (demoSim.zero_grad o) (lossCallOf demoSim d)))
        0) :=
  ⟨by simp, train_mean_loss_and_cycle demoSim [demoBatch] 0 (by simp)⟩

/-- Witness for C8 at a concrete labelled batch. -/
theorem loss_call_labels_witness :
    demoBatch.labels = some [7] ∧
    (train demoSim [demoBatch] 0).calls =
      ([demoBatch] : List (DataItem ℕ ℕ)).map (lossCallOf demoSim) ∧
    lossCallOf demoSim demoBatch = LossCall.withLabels [2] [3] [7] :=
  ⟨rfl, (loss_call_labels_iff demoSim [demoBatch] 0).1,
    (loss_call_labels_iff demoSim [demoBatch] 0).2.2.2.1 demoBatch [7] rfl⟩

/-- Witness for C10 at a concrete trainer whose loss returns no extras. -/
theorem update_metrics_frame_witness :
    ((plainSim.loss (lossCallOf plainSim demoBatch)).extra.1 = none) ∧
    ((plainSim.loss (lossCallOf plainSim demoBatch)).aux = []) ∧
    ((∀ (metrics : List (String × (ℕ → ℕ → ℚ))) (values : Values) (nb : ℕ)
        (lg tg : Option ℕ) (val : Bool), (lg = none ∨ tg = none) →
      update_metrics metrics values nb lg tg val = values) ∧
    (train plainSim [demoBatch] 0).values = [] ∧
    (test plainSim [demoBatch]).values = []) :=
  ⟨rfl, rfl, update_metrics_frame plainSim [demoBatch] 0
    (fun _ => Or.inl rfl) (fun _ => rfl)⟩

/-- Witness for C6 at a concrete trainer with one metric, one auxiliary loss
and a one-batch loader. -/
theorem metric_aggregation_witness :
    (demoSim.loss (lossCallOf demoSim demoBatch)).extra = (some 1, some 2) ∧
    (demoSim.metrics.map Prod.fst).Nodup ∧
    ((∀ nm mt, (nm, mt) ∈ demoSim.metrics →
      valueOf (train demoSim [demoBatch] 0).values nm =
        (([demoBatch] : List (DataItem ℕ ℕ)).map (fun _ => mt 1 2)).sum /
          ((([demoBatch] : List (DataItem ℕ ℕ)).length : ℕ) : ℚ) ∧
      valueOf (test demoSim [demoBatch]).values (nm ++ " on validation set") =
        (([demoBatch] : List (DataItem ℕ ℕ)).map (fun _ => mt 1 2)).sum /
          ((([demoBatch] : List (DataItem ℕ ℕ)).length : ℕ) : ℚ)) ∧
    (∀ a : String, a ∉ demoSim.metrics.map Prod.fst →
      valueOf (train demoSim [demoBatch] 0).values a =
        (([demoBatch] : List (DataItem ℕ ℕ)).map
          (fun d => keySum (demoSim.loss (lossCallOf demoSim d)).aux a)).sum /
          ((([demoBatch] : List (DataItem ℕ ℕ)).length : ℕ) : ℚ) ∧
      valueOf (test demoSim [demoBatch]).values (a ++ " on validation set") =
        (([demoBatch] : List (DataItem ℕ ℕ)).map
          (fun d => keySum (demoSim.loss (lossCallOf demoSim d)).aux a)).sum /
          ((([demoBatch] : List (DataItem ℕ ℕ)).length : ℕ) : ℚ))) := by
  refine ⟨rfl, by decide, ?_⟩
  exact metric_aggregation_mean demoSim [demoBatch] 0 (fun _ => 1) (fun _ => 2)
    (fun d hd => rfl) (by decide)
    (by
      intro d hd q hq
      have hq2 : q ∈ [(("aux" : String), (4 : ℚ))] := hq
      have hq3 : q = ("aux", (4 : ℚ)) := by simpa using hq2
      subst hq3
      decide)
